import Mathlib

/-!
# Verification of the string-analyzer REST service (`src/server.js`)

JavaScript strings are sequences of UTF-16 code units; we embed them as
`List Nat` (each element a 16-bit code unit).  Pure functions of the source
become Lean functions; the mutable in-memory store `strings` becomes explicit
state passing (`List StringRecord` in, `List StringRecord` out).  The SHA-256
hash (`id` / `sha256_hash`) and the wall-clock `created_at` field come from
external collaborators (`crypto`, the clock) and no verified property touches
them, so the record model omits those two fields.
-/

/-- ASCII-range lowercasing, applied code-unit-wise: models the effect of
`String.prototype.toLowerCase` on the (ASCII-lettered) strings the claims
quantify over. -/
def toLowerUnit (c : Nat) : Nat :=
  if 65 ≤ c ∧ c ≤ 90 then c + 32 else c

/-- Model of `value.toLowerCase()` on the code-unit embedding. -/
def jsToLower (s : List Nat) : List Nat :=
  s.map toLowerUnit

/-- The JavaScript whitespace class (`\s`, and the set trimmed by
`String.prototype.trim`): tab through carriage return, space, NBSP, Ogham
space, the U+2000–U+200A range, line/paragraph separators, narrow NBSP,
medium mathematical space, ideographic space, and the BOM. -/
def isJsWs (c : Nat) : Bool :=
  (9 ≤ c && c ≤ 13) || c = 32 || c = 160 || c = 0x1680 ||
  (0x2000 ≤ c && c ≤ 0x200A) || c = 0x2028 || c = 0x2029 ||
  c = 0x202F || c = 0x205F || c = 0x3000 || c = 0xFEFF

/-- Decimal digit code unit (`\d`, i.e. `'0'..'9'`). -/
def isDigit (c : Nat) : Bool := 48 ≤ c && c ≤ 57

/-- Regex word character (`\w`, i.e. `[A-Za-z0-9_]`); `\b` boundaries are
defined from this class. -/
def isWordChar (c : Nat) : Bool :=
  (48 ≤ c && c ≤ 57) || (65 ≤ c && c ≤ 90) || (97 ≤ c && c ≤ 122) || c = 95

/-- ASCII letter (the regex class `[a-zA-Z]`). -/
def isAsciiLetter (c : Nat) : Bool :=
  (65 ≤ c && c ≤ 90) || (97 ≤ c && c ≤ 122)

/-- Code units of an ASCII Lean string literal, used to write concrete
JavaScript strings in theorems (for ASCII text, code units = code points). -/
def units (s : String) : List Nat :=
  s.data.map Char.toNat

/-- UTF-16 high surrogate (U+D800–U+DBFF). -/
def isHighSurr (c : Nat) : Bool := 0xD800 ≤ c && c ≤ 0xDBFF

/-- UTF-16 low surrogate (U+DC00–U+DFFF). -/
def isLowSurr (c : Nat) : Bool := 0xDC00 ≤ c && c ≤ 0xDFFF

/-- The sequence of code points produced by the JavaScript string iterator
(`for...of`, `new Set(str)`, spread): surrogate pairs are combined into one
astral code point, lone surrogates pass through unchanged. -/
def codePoints : List Nat → List Nat
  | [] => []
  | [c] => [c]
  | c :: d :: t =>
    if isHighSurr c && isLowSurr d then
      (0x10000 + (c - 0xD800) * 0x400 + (d - 0xDC00)) :: codePoints t
    else
      c :: codePoints (d :: t)

/-- Returns `true` iff the code-unit sequence contains an (adjacent) surrogate pair,
i.e. iff the string contains an astral character. -/
def hasSurrPair : List Nat → Bool
  | c :: d :: t => (isHighSurr c && isLowSurr d) || hasSurrPair (d :: t)
  | _ => false

/-- Model of `value.trim()`: strip leading and trailing JavaScript whitespace. -/
def jsTrim (s : List Nat) : List Nat :=
  ((s.dropWhile isJsWs).reverse.dropWhile isJsWs).reverse

/-- Model of `str.split(/\s+/)`: cut the string at each maximal whitespace run.  A
leading run yields a leading empty token and a trailing run a trailing empty
token, exactly as in JavaScript (`" a ".split(/\s+/) = ["", "a", ""]`).
Structured so that a run of whitespace emits exactly one cut, at the last
character of the run (a whitespace character followed by another whitespace
character is absorbed). -/
def jsSplitWs : List Nat → List (List Nat)
  | [] => [[]]
  | c :: t =>
    if isJsWs c then
      match t with
      | [] => [[], []]
      | d :: _ => if isJsWs d then jsSplitWs t else [] :: jsSplitWs t
    else
      match jsSplitWs t with
      | [] => [[c]]
      | w :: ws => (c :: w) :: ws

/-- Specification-side tokenizer: the maximal non-whitespace runs of the
string, in order.  Used to state what `word_count` counts. -/
def wsTokens : List Nat → List (List Nat)
  | [] => []
  | c :: t =>
    if isJsWs c then wsTokens t
    else
      (c :: t.takeWhile (fun x => !isJsWs x)) ::
        wsTokens ((c :: t).dropWhile (fun x => !isJsWs x))
termination_by s => s.length
decreasing_by
  · simp
  · rename_i h
    rw [List.dropWhile_cons_of_pos (by simp [h])]
    exact Nat.lt_succ_of_le (List.dropWhile_sublist _).length_le

/-- One step of the frequency-map loop
`character_frequency_map[ch] = (character_frequency_map[ch] || 0) + 1`:
increment the entry for `c`, appending a fresh entry when absent (JavaScript
object keys appear in first-insertion order). -/
def insFreq : List (Nat × Nat) → Nat → List (Nat × Nat)
  | [], c => [(c, 1)]
  | (k, n) :: t, c => if k = c then (k, n + 1) :: t else (k, n) :: insFreq t c

/-- The `character_frequency_map` of `analyzeString`: the `for (const ch of value)`
loop iterates over code points. -/
def charFreqMap (s : List Nat) : List (Nat × Nat) :=
  (codePoints s).foldl insFreq []

/-- A stored record, as built by `analyzeString` in `src/server.js`.  The
`properties` sub-object is inlined; `id`/`sha256_hash`/`created_at` are
omitted (external hash and clock, untouched by any claim). -/
structure StringRecord where
  value : List Nat
  length : Nat
  is_palindrome : Bool
  unique_characters : Nat
  word_count : Nat
  character_frequency_map : List (Nat × Nat)
deriving DecidableEq, Repr

/-- Model of `analyzeString(value)` from `src/server.js` lines 17–42:
* `length` is `value.length`, the code-unit count;
* `is_palindrome` compares the lowercased string with the reversal of its
  code units (`split('').reverse().join('')`);
* `unique_characters` is `new Set(value).size`, the number of distinct code
  points (the `Set` constructor consumes the string iterator);
* `word_count` trims, splits on whitespace runs and counts non-empty tokens,
  with an explicit `0` for the empty/whitespace-only string;
* `character_frequency_map` counts occurrences per code point. -/
def analyzeString (value : List Nat) : StringRecord :=
  { value := value
    length := value.length
    is_palindrome := jsToLower value == (jsToLower value).reverse
    unique_characters := (codePoints value).dedup.length
    word_count :=
      if (jsTrim value).length = 0 then 0
      else ((jsSplitWs (jsTrim value)).filter (fun w => !w.isEmpty)).length
    character_frequency_map := charFreqMap value }

/-- Model of `findByValue(value)` from `src/server.js` lines 45–47: first record whose
`value` is (case-sensitively) equal. -/
def findByValue (store : List StringRecord) (value : List Nat) :
    Option StringRecord :=
  store.find? (fun item => item.value == value)

/-- Outcome of `POST /strings` for a string-typed body value (the
missing-field and wrong-type guards are outside this value's type). -/
inductive PostResult where
  | created (entry : StringRecord)
  | duplicate
deriving DecidableEq, Repr

/-- Model of `app.post('/strings')` from `src/server.js` lines 63–80, restricted to a
string-typed `value`: reject a (case-sensitive) duplicate with HTTP 409 and
leave the store untouched, otherwise append the analyzed record (201). -/
def postStrings (store : List StringRecord) (value : List Nat) :
    PostResult × List StringRecord :=
  match findByValue store value with
  | some _ => (.duplicate, store)
  | none =>
    let entry := analyzeString value
    (.created entry, store ++ [entry])

/-- Model of `Array.prototype.findIndex`: index of the first element satisfying `p`. -/
def jsFindIndex (p : α → Bool) : List α → Option Nat
  | [] => none
  | a :: t => if p a then some 0 else (jsFindIndex p t).map (· + 1)

/-- Model of `arr.splice(idx, 1)`: remove the element at `idx`. -/
def jsSplice1 (l : List α) (i : Nat) : List α :=
  l.take i ++ l.drop (i + 1)

/-- Outcome of `DELETE /strings/:string_value`. -/
inductive DeleteResult where
  | notFound
  | deleted (store : List StringRecord)
deriving DecidableEq, Repr

/-- Model of `app.delete('/strings/:string_value')` from `src/server.js` lines
261–269: find the first record with (case-sensitively) equal `value`,
404 when absent, otherwise splice it out and answer 204. -/
def deleteString (store : List StringRecord) (stringValue : List Nat) :
    DeleteResult :=
  match jsFindIndex (fun item => item.value == stringValue) store with
  | none => .notFound
  | some idx => .deleted (jsSplice1 store idx)

/-- Model of `app.delete('/strings/:string_value')` of the variant
`src/unnamed/part_001` lines 247–259: same shape, but the value match is
case-insensitive (`item.value.toLowerCase() === string_value.toLowerCase()`). -/
def deleteStringCI (store : List StringRecord) (stringValue : List Nat) :
    DeleteResult :=
  match jsFindIndex
      (fun item => jsToLower item.value == jsToLower stringValue) store with
  | none => .notFound
  | some idx => .deleted (jsSplice1 store idx)

/-- A transient filter predicate set (query parameters after
validation/translation): every field optional, `contains_character` a single
already-lowercased code unit. -/
structure Filters where
  is_palindrome : Option Bool
  min_length : Option Int
  max_length : Option Int
  word_count : Option Int
  contains_character : Option Nat
deriving DecidableEq, Repr

/-- The empty filter set (no query parameter provided). -/
def emptyFilters : Filters := ⟨none, none, none, none, none⟩

/-- The filter-application chain of `app.get('/strings')`
(`src/server.js` lines 134–158): each provided field shrinks `results` by an
`Array.prototype.filter`, in source order (palindrome, min, max, word count,
contains). -/
def applyFilters (records : List StringRecord) (f : Filters) :
    List StringRecord :=
  let r1 := match f.is_palindrome with
    | some b => records.filter (fun item => item.is_palindrome == b)
    | none => records
  let r2 := match f.min_length with
    | some m => r1.filter (fun item => m ≤ (item.length : Int))
    | none => r1
  let r3 := match f.max_length with
    | some m => r2.filter (fun item => (item.length : Int) ≤ m)
    | none => r2
  let r4 := match f.word_count with
    | some w => r3.filter (fun item => (item.word_count : Int) == w)
    | none => r3
  let r5 := match f.contains_character with
    | some c => r4.filter (fun item => (jsToLower item.value).contains c)
    | none => r4
  r5

/-- Specification-side conjunction: `r` satisfies every provided predicate of
`f`. -/
def satisfiesFilters (f : Filters) (r : StringRecord) : Bool :=
  (match f.is_palindrome with
    | some b => r.is_palindrome == b
    | none => true) &&
  (match f.min_length with
    | some m => decide (m ≤ (r.length : Int))
    | none => true) &&
  (match f.max_length with
    | some m => decide ((r.length : Int) ≤ m)
    | none => true) &&
  (match f.word_count with
    | some w => (r.word_count : Int) == w
    | none => true) &&
  (match f.contains_character with
    | some c => (jsToLower r.value).contains c
    | none => true)

/-- The `parseIntOrNull(v)` result space: `undefined` (param absent), `null`
(`parseInt` gave `NaN`) or an integer. -/
inductive IntOrNull where
  | undef
  | null
  | val (n : Int)
deriving DecidableEq, Repr

/-- Value of `Number(digits)` for a non-empty digit run (also the value `parseInt`
assembles from the digits it consumed). -/
def digitsToNat (ds : List Nat) : Nat :=
  ds.foldl (fun acc c => acc * 10 + (c - 48)) 0

/-- Model of `parseInt(v, 10)`: skip leading whitespace, read an optional sign, then
the maximal leading digit run; `NaN` (here `none`) when no digit follows,
and any trailing non-digit content is ignored. -/
def jsParseInt10 (v : List Nat) : Option Int :=
  let s := v.dropWhile isJsWs
  let signed : Int × List Nat :=
    match s with
    | c :: t => if c = 43 then (1, t) else if c = 45 then (-1, t) else (1, s)
    | [] => (1, [])
  let ds := signed.2.takeWhile isDigit
  if ds.isEmpty then none else some (signed.1 * (digitsToNat ds : Int))

/-- Model of `parseIntOrNull(v)` from `src/server.js` lines 50–54. -/
def parseIntOrNull (v : Option (List Nat)) : IntOrNull :=
  match v with
  | none => .undef
  | some s => match jsParseInt10 s with
    | none => .null
    | some n => .val n

/-- The raw query-string parameters of `GET /strings` (each one an optional
string, as delivered by the transport layer). -/
structure RawQuery where
  is_palindrome : Option (List Nat)
  min_length : Option (List Nat)
  max_length : Option (List Nat)
  word_count : Option (List Nat)
  contains_character : Option (List Nat)
deriving DecidableEq, Repr

/-- Outcome of `GET /strings`: HTTP 400, or HTTP 200 with the filtered data
and the `filters_applied` echo of the parsed (normalized) filter values. -/
inductive GetResult where
  | badRequest
  | ok (data : List StringRecord) (filters_applied : Filters)
deriving DecidableEq, Repr

/-- The validation block of `app.get('/strings')` (`src/server.js` lines
112–132), producing the normalized filter set: `is_palindrome` must be the
literal `"true"`/`"false"`, the three numeric fields must survive
`parseIntOrNull`, and `contains_character` must be exactly one code unit
(stored lowercased, as the application step lowers it).  `none` is the
whole-request rejection (HTTP 400). -/
def parseFilters (rq : RawQuery) : Option Filters :=
  let pal : Option (Option Bool) :=
    match rq.is_palindrome with
    | none => some none
    | some v =>
      if v = units "true" then some (some true)
      else if v = units "false" then some (some false)
      else none
  match pal with
  | none => none
  | some pal =>
    match parseIntOrNull rq.min_length with
    | .null => none
    | minV =>
      match parseIntOrNull rq.max_length with
      | .null => none
      | maxV =>
        match parseIntOrNull rq.word_count with
        | .null => none
        | wcV =>
          let toOpt : IntOrNull → Option Int :=
            fun i => match i with
              | .val n => some n
              | _ => none
          match rq.contains_character with
          | none => some ⟨pal, toOpt minV, toOpt maxV, toOpt wcV, none⟩
          | some v =>
            match v with
            | [c] => some ⟨pal, toOpt minV, toOpt maxV, toOpt wcV,
                some (toLowerUnit c)⟩
            | _ => none

/-- Model of `app.get('/strings')` from `src/server.js` lines 102–165: validate every
provided parameter (rejecting the whole request otherwise), then apply the
filter chain to a copy of the store. -/
def getStrings (store : List StringRecord) (rq : RawQuery) : GetResult :=
  match parseFilters rq with
  | none => .badRequest
  | some f => .ok (applyFilters store f) f

/-- Match a literal against the head of the input: `some rest` when `lit` is
an initial segment, with `rest` the remainder.  This is regex literal
matching at a fixed position. -/
def stripLit : List Nat → List Nat → Option (List Nat)
  | [], s => some s
  | _ :: _, [] => none
  | a :: as, b :: bs => if a = b then stripLit as bs else none

/-- Left-to-right regex scan: attempt `t` at every position whose preceding
character is not a word character (all the source patterns open with `\b`
followed by a word character, so a position qualifies exactly when the
previous character is non-word or the position is the start).  `pw` records
whether the previous character was a word character. -/
def scanB (t : List Nat → Option α) : List Nat → Bool → Option α
  | [], pw => if pw then none else t []
  | c :: rest, pw =>
    match (if pw then none else t (c :: rest)) with
    | some a => some a
    | none => scanB t rest (isWordChar c)

/-- Attempt of `/\blonger than (\d+)/` at one position: the literal
`"longer than "` followed by at least one digit; the capture is the maximal
digit run. -/
def tryLonger (s : List Nat) : Option Nat :=
  match stripLit (units "longer than ") s with
  | none => none
  | some r =>
    let ds := r.takeWhile isDigit
    if ds.isEmpty then none else some (digitsToNat ds)

/-- Attempt of `/\b(shorter than|less than) (\d+)/` at one position. -/
def tryShorter (s : List Nat) : Option Nat :=
  let after : Option (List Nat) :=
    match stripLit (units "shorter than ") s with
    | some r => some r
    | none => stripLit (units "less than ") s
  match after with
  | none => none
  | some r =>
    let ds := r.takeWhile isDigit
    if ds.isEmpty then none else some (digitsToNat ds)

/-- Attempt of `/\bpalindrom\w*\b/` at one position: after the literal
`"palindrom"` the greedy `\w*` swallows the maximal word-character run and
the closing `\b` then always holds (the preceding character is the word
character `m` or the last of the run), so the attempt reduces to the
literal. -/
def tryPalin (s : List Nat) : Option Unit :=
  match stripLit (units "palindrom") s with
  | none => none
  | some _ => some ()

/-- Returns `true` when the position after a matched token satisfies `\b`, i.e. the
next character is absent or not a word character. -/
def boundaryAfter (r : List Nat) : Bool :=
  match r with
  | [] => true
  | c :: _ => !isWordChar c

/-- Inner scan for the `.*\bword\b` tail of `/\b(single|one)\b.*\bword\b/`:
look for a whole-word `"word"` to the right, stopping at the first line
terminator (the dot does not match `\n`, `\r`, U+2028, U+2029).  `pw` starts
`true` because the character before the remainder is the final (word)
letter of `single`/`one`. -/
def scanWordTail : List Nat → Bool → Bool
  | s, pw =>
    let here : Bool :=
      if pw then false
      else match stripLit (units "word") s with
        | some r => boundaryAfter r
        | none => false
    here ||
      match s with
      | [] => false
      | c :: rest =>
        if c = 10 || c = 13 || c = 0x2028 || c = 0x2029 then false
        else scanWordTail rest (isWordChar c)

/-- Attempt of `/\b(single|one)\b.*\bword\b/` at one position: the token
`single` or `one` as a whole word, then `"word"` as a whole word further
right on the same line. -/
def trySingleOne (s : List Nat) : Option Unit :=
  let viaTok : List Nat → Option Unit := fun tok =>
    match stripLit tok s with
    | none => none
    | some r =>
      if boundaryAfter r then
        if scanWordTail r true then some () else none
      else none
  match viaTok (units "single") with
  | some u => some u
  | none => viaTok (units "one")

/-- Attempt of `/\bword count is 1\b/` at one position. -/
def tryWcLit (s : List Nat) : Option Unit :=
  match stripLit (units "word count is 1") s with
  | none => none
  | some r => if boundaryAfter r then some () else none

/-- Attempt of `/\b(\d+)\s+word(s)?\b/` at one position: a maximal digit run
(the capture), at least one whitespace, the literal `"word"`, an optional
`"s"`, and a closing `\b`.  When an `s` follows `word` the optional group
must consume it (a word character cannot carry the boundary), so the
boundary is checked after the `s` in that case. -/
def tryNumWords (s : List Nat) : Option Nat :=
  let ds := s.takeWhile isDigit
  if ds.isEmpty then none
  else
    let r1 := s.dropWhile isDigit
    if (r1.takeWhile isJsWs).isEmpty then none
    else
      match stripLit (units "word") (r1.dropWhile isJsWs) with
      | none => none
      | some r2 =>
        match r2 with
        | [] => some (digitsToNat ds)
        | c :: r3 =>
          if c = 115 then
            if boundaryAfter r3 then some (digitsToNat ds) else none
          else if isWordChar c then none
          else some (digitsToNat ds)

/-- The thirteen alternatives of
`(?:contain(?:ing|s)?(?: the)?(?: letter)?|containing)` in backtracking
order: the greedy optional groups are tried longest-first,
depth-first (`ing` before `s` before nothing, `" the"` before nothing,
`" letter"` before nothing), with the lone alternative `containing` last. -/
def containLits : List (List Nat) :=
  [units "containing the letter", units "containing the",
   units "containing letter", units "containing",
   units "contains the letter", units "contains the",
   units "contains letter", units "contains",
   units "contain the letter", units "contain the",
   units "contain letter", units "contain",
   units "containing"]

/-- Attempt of
`/\b(?:contain(?:ing|s)?(?: the)?(?: letter)?|containing)\s+([a-zA-Z])\b/`
at one position: each alternative literal in order, then at least one
whitespace, then a single captured ASCII letter carrying a closing `\b`. -/
def tryContains (s : List Nat) : Option Nat :=
  let tryBranch : List Nat → Option Nat := fun lit =>
    match stripLit lit s with
    | none => none
    | some r =>
      if (r.takeWhile isJsWs).isEmpty then none
      else
        match r.dropWhile isJsWs with
        | [] => none
        | c :: r2 =>
          if isAsciiLetter c then
            if boundaryAfter r2 then some c else none
          else none
  containLits.foldl
    (fun acc lit => match acc with
      | some c => some c
      | none => tryBranch lit) none

/-- Model of `parseNaturalLanguageQuery(q)` from `src/server.js` lines 174–201:
lowercase the phrase, run the recognizers, and return `none` when the parsed
object stayed empty. -/
def parseNaturalLanguageQuery (q : List Nat) : Option Filters :=
  let s := jsToLower q
  let wcSingle : Option Int :=
    if (scanB trySingleOne s false).isSome || (scanB tryWcLit s false).isSome
    then some 1 else none
  let wc : Option Int :=
    match scanB tryNumWords s false with
    | some n => some (n : Int)
    | none => wcSingle
  let pal : Option Bool :=
    if (scanB tryPalin s false).isSome then some true else none
  let minL : Option Int :=
    match scanB tryLonger s false with
    | some n => some ((n : Int) + 1)
    | none => none
  let maxL : Option Int :=
    match scanB tryShorter s false with
    | some n => some ((n : Int) - 1)
    | none => none
  let cc : Option Nat := (scanB tryContains s false).map toLowerUnit
  if pal.isNone && minL.isNone && maxL.isNone && wc.isNone && cc.isNone
  then none
  else some ⟨pal, minL, maxL, wc, cc⟩

/-- Returns `true` iff at least one of the five recognizers of §4.5 fires on the
(lowercased) phrase `s`: palindrome mention, a word-count mention (either
the `single`/`one` forms or the numeric form), `longer than N`,
`shorter than N` / `less than N`, or a contains-letter phrase. -/
def recognizerFires (s : List Nat) : Bool :=
  (scanB tryPalin s false).isSome ||
  ((scanB trySingleOne s false).isSome || (scanB tryWcLit s false).isSome ||
    (scanB tryNumWords s false).isSome) ||
  (scanB tryLonger s false).isSome ||
  (scanB tryShorter s false).isSome ||
  (scanB tryContains s false).isSome

/-- A filter set with at least one field populated (a non-empty parsed
object). -/
def Filters.nonEmpty (f : Filters) : Bool :=
  f.is_palindrome.isSome || f.min_length.isSome || f.max_length.isSome ||
  f.word_count.isSome || f.contains_character.isSome

/-- Outcome of `GET /strings/filter-by-natural-language`: missing `query`
(400), unparseable phrase (400), parsed but conflicting bounds (422), or
success (200) with the filtered data and the derived filter set. -/
inductive NLResult where
  | missingQuery
  | unparseable
  | conflicting (parsed_filters : Filters)
  | ok (data : List StringRecord) (parsed_filters : Filters)
deriving DecidableEq, Repr

/-- The filter-application chain of the natural-language handler
(`src/server.js` lines 228–244): palindrome (only on `=== true`), word
count, min, max, contains (lowercased again, idempotently). -/
def nlApply (records : List StringRecord) (f : Filters) : List StringRecord :=
  let r1 := if f.is_palindrome = some true
    then records.filter (fun item => item.is_palindrome == true)
    else records
  let r2 := match f.word_count with
    | some w => r1.filter (fun item => (item.word_count : Int) == w)
    | none => r1
  let r3 := match f.min_length with
    | some m => r2.filter (fun item => m ≤ (item.length : Int))
    | none => r2
  let r4 := match f.max_length with
    | some m => r3.filter (fun item => (item.length : Int) ≤ m)
    | none => r3
  let r5 := match f.contains_character with
    | some c => r4.filter (fun item => (jsToLower item.value).contains (toLowerUnit c))
    | none => r4
  r5

/-- Model of `app.get('/strings/filter-by-natural-language')` from `src/server.js`
lines 203–254: reject a missing/empty `query` (400), an unparseable phrase
(400), a parse with `min_length > max_length` (422, with the parsed
filters), and otherwise filter the store (200). -/
def filterByNaturalLanguage (store : List StringRecord) (query : List Nat) :
    NLResult :=
  if query.isEmpty then .missingQuery
  else
    match parseNaturalLanguageQuery query with
    | none => .unparseable
    | some f =>
      match f.min_length, f.max_length with
      | some mn, some mx =>
        if mx < mn then .conflicting f else .ok (nlApply store f) f
      | _, _ => .ok (nlApply store f) f

/-! ## Helper lemmas -/

theorem stripLit_append (lit r : List Nat) : stripLit lit (lit ++ r) = some r := by
  induction lit with
  | nil => rfl
  | cons a as ih => simp [stripLit, ih]

theorem scanB_of_here {t : List Nat → Option α} {s : List Nat} {a : α}
    (h : t s = some a) : scanB t s false = some a := by
  cases s <;> simp [scanB, h]

theorem isJsWs_of_isDigit {c : Nat} (h : isDigit c = true) : isJsWs c = false := by
  simp only [isDigit, Bool.and_eq_true, decide_eq_true_eq] at h
  simp only [isJsWs, Bool.or_eq_false_iff, Bool.and_eq_false_iff,
    decide_eq_false_iff_not, not_le]
  omega

theorem toLowerUnit_of_isDigit {c : Nat} (h : isDigit c = true) :
    toLowerUnit c = c := by
  simp only [isDigit, Bool.and_eq_true, decide_eq_true_eq] at h
  simp only [toLowerUnit, ite_eq_right_iff]
  omega

theorem jsToLower_digits {d : List Nat} (h : ∀ c ∈ d, isDigit c = true) :
    jsToLower d = d := by
  unfold jsToLower
  have hcongr : ∀ a ∈ d, toLowerUnit a = id a :=
    fun a ha => toLowerUnit_of_isDigit (h a ha)
  rw [List.map_congr_left hcongr, List.map_id]

theorem takeWhile_digits_append {d q : List Nat}
    (hd : ∀ c ∈ d, isDigit c = true)
    (hq : ∀ c, q.head? = some c → isDigit c = false) :
    (d ++ q).takeWhile isDigit = d := by
  induction d with
  | nil =>
    cases q with
    | nil => rfl
    | cons c t => simp [List.takeWhile_cons, hq c rfl]
  | cons a as ih =>
    have ha : isDigit a = true := hd a (by simp)
    simp only [List.cons_append, List.takeWhile_cons, ha, if_true]
    rw [ih (fun c hc => hd c (by simp [hc]))]

theorem dropWhile_digits_append {d q : List Nat}
    (hd : ∀ c ∈ d, isDigit c = true)
    (hq : ∀ c, q.head? = some c → isDigit c = false) :
    (d ++ q).dropWhile isDigit = q := by
  induction d with
  | nil =>
    cases q with
    | nil => rfl
    | cons c t => simp [List.dropWhile_cons, hq c rfl]
  | cons a as ih =>
    have ha : isDigit a = true := hd a (by simp)
    simp only [List.cons_append, List.dropWhile_cons, ha, if_true]
    exact ih (fun c hc => hd c (by simp [hc]))

theorem find?_append_none {l l2 : List α} {p : α → Bool}
    (h : l.find? p = none) : (l ++ l2).find? p = l2.find? p := by
  rw [List.find?_append, h, Option.none_or]

theorem wsTokens_dropWhile_ws (t : List Nat) :
    wsTokens (t.dropWhile isJsWs) = wsTokens t := by
  induction t with
  | nil => rfl
  | cons d t' ih =>
    by_cases hd : isJsWs d = true
    · rw [List.dropWhile_cons_of_pos hd, ih]
      simp [wsTokens, hd]
    · rw [List.dropWhile_cons_of_neg hd]

theorem jsSplitWs_ne_nil (s : List Nat) : jsSplitWs s ≠ [] := by
  induction s with
  | nil => simp [jsSplitWs]
  | cons c t ih =>
    by_cases hc : isJsWs c = true
    · cases t with
      | nil => simp [jsSplitWs, hc]
      | cons d t' =>
        by_cases hd : isJsWs d = true
        · simpa [jsSplitWs, hc, hd] using ih
        · simp [jsSplitWs, hc, hd]
    · simp only [jsSplitWs]
      rw [if_neg hc]
      cases jsSplitWs t <;> simp

theorem jsSplitWs_head (s : List Nat) :
    (jsSplitWs s).head? = some (s.takeWhile (fun x => !isJsWs x)) := by
  induction s with
  | nil => simp [jsSplitWs]
  | cons c t ih =>
    by_cases hc : isJsWs c = true
    · cases t with
      | nil => simp [jsSplitWs, hc, List.takeWhile_cons]
      | cons d t' =>
        by_cases hd : isJsWs d = true
        · rw [show jsSplitWs (c :: d :: t') = jsSplitWs (d :: t') by
            simp [jsSplitWs, hc, hd]]
          rw [ih]
          simp [List.takeWhile_cons, hc, hd]
        · simp [jsSplitWs, hc, hd, List.takeWhile_cons]
    · simp only [jsSplitWs]
      rw [if_neg hc]
      rcases hsp : jsSplitWs t with _ | ⟨w, ws⟩
      · exact absurd hsp (jsSplitWs_ne_nil t)
      · have hw : w = t.takeWhile (fun x => !isJsWs x) := by
          rw [hsp] at ih; simpa using ih
        simp [List.takeWhile_cons, hc, hw]

theorem jsSplitWs_filter_eq_wsTokens (s : List Nat) :
    (jsSplitWs s).filter (fun w => !w.isEmpty) = wsTokens s := by
  induction s with
  | nil => simp [jsSplitWs, wsTokens]
  | cons c t ih =>
    by_cases hc : isJsWs c = true
    · have htok : wsTokens (c :: t) = wsTokens t := by simp [wsTokens, hc]
      rw [htok]
      cases t with
      | nil => simp [jsSplitWs, hc, wsTokens]
      | cons d t' =>
        by_cases hd : isJsWs d = true
        · rw [show jsSplitWs (c :: d :: t') = jsSplitWs (d :: t') by
            simp [jsSplitWs, hc, hd]]
          exact ih
        · rw [show jsSplitWs (c :: d :: t') = [] :: jsSplitWs (d :: t') by
            simp [jsSplitWs, hc, hd]]
          rw [List.filter_cons_of_neg (by simp)]
          exact ih
    · rcases hsp : jsSplitWs t with _ | ⟨w, ws⟩
      · exact absurd hsp (jsSplitWs_ne_nil t)
      have hw : w = t.takeWhile (fun x => !isJsWs x) := by
        have hh := jsSplitWs_head t; rw [hsp] at hh; simpa using hh
      rw [hsp] at ih
      have e1 : jsSplitWs (c :: t) = (c :: w) :: ws := by
        simp only [jsSplitWs]
        rw [if_neg hc, hsp]
      have e2 : wsTokens (c :: t) =
          (c :: t.takeWhile (fun x => !isJsWs x)) ::
            wsTokens (t.dropWhile (fun x => !isJsWs x)) := by
        simp only [wsTokens]
        rw [if_neg hc, List.dropWhile_cons_of_pos (by simp [hc])]
      rw [e1, e2, List.filter_cons_of_pos (by simp)]
      rcases htk : t.takeWhile (fun x => !isJsWs x) with _ | ⟨a, w'⟩
      · have hdrop : t.dropWhile (fun x => !isJsWs x) = t := by
          cases t with
          | nil => rfl
          | cons b t' =>
            by_cases hb : isJsWs b = true
            · exact List.dropWhile_cons_of_neg (by simp [hb])
            · rw [List.takeWhile_cons, if_pos (by simp [hb])] at htk
              exact absurd htk (by simp)
        rw [hw, htk] at ih ⊢
        rw [List.filter_cons_of_neg (by simp)] at ih
        rw [hdrop, ← ih]
      · have hstep : wsTokens t =
            (a :: w') :: wsTokens (t.dropWhile (fun x => !isJsWs x)) := by
          cases t with
          | nil => exact absurd htk (by simp)
          | cons b t' =>
            by_cases hb : isJsWs b = true
            · rw [List.takeWhile_cons, if_neg (by simp [hb])] at htk
              exact absurd htk (by simp)
            · rw [List.takeWhile_cons, if_pos (by simp [hb])] at htk
              injection htk with hba htk'
              subst hba
              simp only [wsTokens]
              rw [if_neg hb, List.dropWhile_cons_of_pos (by simp [hb]), htk']
        rw [hw, htk] at ih ⊢
        rw [List.filter_cons_of_pos (by simp)] at ih
        rw [hstep] at ih
        injection ih with ih1 ih2
        rw [ih2]

theorem wsTokens_all_ws {v : List Nat} (h : ∀ c ∈ v, isJsWs c = true) :
    wsTokens v = [] := by
  induction v with
  | nil => simp [wsTokens]
  | cons c t ih =>
    have hc : isJsWs c = true := h c (by simp)
    simp only [wsTokens, hc, if_true]
    exact ih (fun x hx => h x (by simp [hx]))

theorem takeWhile_nonws_append {u v : List Nat}
    (h : ∀ c ∈ v, isJsWs c = true) :
    (u ++ v).takeWhile (fun x => !isJsWs x) = u.takeWhile (fun x => !isJsWs x) := by
  induction u with
  | nil =>
    cases v with
    | nil => rfl
    | cons c t => simp [List.takeWhile_cons, h c (by simp)]
  | cons a u' ih =>
    by_cases ha : isJsWs a = true
    · simp [List.takeWhile_cons, ha]
    · simp only [List.cons_append, List.takeWhile_cons, ha]
      simp only [Bool.not_false, if_true]
      rw [ih]

theorem dropWhile_nonws_append {u v : List Nat}
    (h : ∀ c ∈ v, isJsWs c = true) :
    (u ++ v).dropWhile (fun x => !isJsWs x) =
      u.dropWhile (fun x => !isJsWs x) ++ v := by
  induction u with
  | nil =>
    cases v with
    | nil => rfl
    | cons c t => simp [List.dropWhile_cons, h c (by simp)]
  | cons a u' ih =>
    by_cases ha : isJsWs a = true
    · simp [List.dropWhile_cons, ha]
    · simp only [List.cons_append, List.dropWhile_cons, ha]
      simp only [Bool.not_false, if_true]
      rw [ih]

theorem wsTokens_append_ws (u : List Nat) {v : List Nat}
    (h : ∀ c ∈ v, isJsWs c = true) :
    wsTokens (u ++ v) = wsTokens u := by
  match u with
  | [] =>
    rw [List.nil_append, wsTokens_all_ws h]
    simp [wsTokens]
  | c :: u' =>
    by_cases hc : isJsWs c = true
    · have ih := wsTokens_append_ws u' h
      simp only [List.cons_append, wsTokens, hc, if_true]
      exact ih
    · have e2 : wsTokens (c :: (u' ++ v)) =
          (c :: (u' ++ v).takeWhile (fun x => !isJsWs x)) ::
            wsTokens ((u' ++ v).dropWhile (fun x => !isJsWs x)) := by
        simp only [wsTokens]
        rw [if_neg hc, List.dropWhile_cons_of_pos (by simp [hc])]
      have e3 : wsTokens (c :: u') =
          (c :: u'.takeWhile (fun x => !isJsWs x)) ::
            wsTokens (u'.dropWhile (fun x => !isJsWs x)) := by
        simp only [wsTokens]
        rw [if_neg hc, List.dropWhile_cons_of_pos (by simp [hc])]
      have ih := wsTokens_append_ws (u'.dropWhile (fun x => !isJsWs x)) h
      rw [List.cons_append, e2, e3, takeWhile_nonws_append h,
        dropWhile_nonws_append h, ih]
termination_by u.length
decreasing_by
  · simp
  · refine Nat.lt_succ_of_le ?_
    exact (List.dropWhile_sublist _).length_le

theorem jsTrim_decomp (s : List Nat) :
    ∃ v, s.dropWhile isJsWs = jsTrim s ++ v ∧ ∀ c ∈ v, isJsWs c = true := by
  refine ⟨((s.dropWhile isJsWs).reverse.takeWhile isJsWs).reverse, ?_, ?_⟩
  · unfold jsTrim
    have h1 := List.takeWhile_append_dropWhile isJsWs (s.dropWhile isJsWs).reverse
    calc s.dropWhile isJsWs
        = (s.dropWhile isJsWs).reverse.reverse := (List.reverse_reverse _).symm
      _ = ((s.dropWhile isJsWs).reverse.takeWhile isJsWs ++
            (s.dropWhile isJsWs).reverse.dropWhile isJsWs).reverse := by rw [h1]
      _ = ((s.dropWhile isJsWs).reverse.dropWhile isJsWs).reverse ++
            ((s.dropWhile isJsWs).reverse.takeWhile isJsWs).reverse := by
            rw [List.reverse_append]
  · intro c hc
    rw [List.mem_reverse] at hc
    exact List.mem_takeWhile_imp hc

theorem wsTokens_jsTrim (s : List Nat) : wsTokens (jsTrim s) = wsTokens s := by
  obtain ⟨v, hv, hws⟩ := jsTrim_decomp s
  calc wsTokens (jsTrim s)
      = wsTokens (jsTrim s ++ v) := (wsTokens_append_ws _ hws).symm
    _ = wsTokens (s.dropWhile isJsWs) := by rw [hv]
    _ = wsTokens s := wsTokens_dropWhile_ws s

theorem analyzeString_word_count (s : List Nat) :
    (analyzeString s).word_count = (wsTokens s).length := by
  show (if (jsTrim s).length = 0 then 0
    else ((jsSplitWs (jsTrim s)).filter (fun w => !w.isEmpty)).length) = _
  by_cases h : (jsTrim s).length = 0
  · rw [if_pos h]
    have : jsTrim s = [] := List.length_eq_zero.mp h
    rw [← wsTokens_jsTrim, this]
    simp [wsTokens]
  · rw [if_neg h, jsSplitWs_filter_eq_wsTokens, wsTokens_jsTrim]

/-- Sum of the counts stored in a frequency map. -/
def freqSum (m : List (Nat × Nat)) : Nat :=
  (m.map Prod.snd).sum

theorem freqSum_insFreq (m : List (Nat × Nat)) (c : Nat) :
    freqSum (insFreq m c) = freqSum m + 1 := by
  induction m with
  | nil => rfl
  | cons kv t ih =>
    obtain ⟨k, n⟩ := kv
    by_cases hk : k = c
    · simp [insFreq, hk, freqSum]
      omega
    · simp only [insFreq, hk, if_false, freqSum, List.map_cons, List.sum_cons]
      simp only [freqSum] at ih
      omega

theorem freqSum_foldl (l : List Nat) (m : List (Nat × Nat)) :
    freqSum (l.foldl insFreq m) = freqSum m + l.length := by
  induction l generalizing m with
  | nil => simp
  | cons c t ih =>
    simp only [List.foldl_cons, ih, freqSum_insFreq, List.length_cons]
    omega

theorem freqSum_charFreqMap (s : List Nat) :
    freqSum (charFreqMap s) = (codePoints s).length := by
  unfold charFreqMap
  rw [freqSum_foldl]
  simp [freqSum]

theorem codePoints_length_of_no_pair {s : List Nat}
    (h : hasSurrPair s = false) : (codePoints s).length = s.length := by
  match s with
  | [] => rfl
  | [c] => rfl
  | c :: d :: t =>
    simp only [hasSurrPair, Bool.or_eq_false_iff] at h
    obtain ⟨h1, h2⟩ := h
    have ih := codePoints_length_of_no_pair h2
    have e : codePoints (c :: d :: t) = c :: codePoints (d :: t) := by
      simp only [codePoints]
      rw [if_neg (by simp [h1])]
    rw [e]
    simp only [List.length_cons] at ih ⊢
    omega

theorem filter_sublist_trans {l m : List StringRecord} {p : StringRecord → Bool}
    (h : l.Sublist m) : (l.filter p).Sublist m :=
  (List.filter_sublist l).trans h

theorem applyFilters_sublist (records : List StringRecord) (f : Filters) :
    (applyFilters records f).Sublist records := by
  obtain ⟨pal, mn, mx, wc, cc⟩ := f
  unfold applyFilters
  cases pal <;> cases mn <;> cases mx <;> cases wc <;> cases cc <;>
    simp only [] <;>
    (repeat apply filter_sublist_trans) <;>
    exact List.Sublist.refl _

theorem applyFilters_mem (records : List StringRecord) (f : Filters)
    (r : StringRecord) :
    r ∈ applyFilters records f ↔
      r ∈ records ∧ satisfiesFilters f r = true := by
  obtain ⟨pal, mn, mx, wc, cc⟩ := f
  unfold applyFilters satisfiesFilters
  cases pal <;> cases mn <;> cases mx <;> cases wc <;> cases cc <;>
    simp [List.mem_filter] <;> tauto

theorem jsFindIndex_decomp {p : α → Bool} {l : List α} {i : Nat}
    (h : jsFindIndex p l = some i) :
    ∃ pre x post, l = pre ++ x :: post ∧ pre.length = i ∧ p x = true ∧
      ∀ y ∈ pre, p y = false := by
  induction l generalizing i with
  | nil => simp [jsFindIndex] at h
  | cons a t ih =>
    by_cases ha : p a = true
    · simp only [jsFindIndex, ha, if_true, Option.some.injEq] at h
      exact ⟨[], a, t, by simp, by simp [← h], ha, by simp⟩
    · simp only [jsFindIndex, ha, if_false] at h
      rcases hj : jsFindIndex p t with _ | j
      · rw [hj] at h; simp at h
      obtain rfl : j + 1 = i := by rw [hj] at h; simpa using h
      obtain ⟨pre, x, post, hl, hlen, hx, hpre⟩ := ih hj
      refine ⟨a :: pre, x, post, by simp [hl], by simp [hlen], hx, ?_⟩
      intro y hy
      rcases List.mem_cons.mp hy with hy | hy
      · rw [hy]; simpa using ha
      · exact hpre y hy

theorem jsSplice1_append (pre post : List α) (x : α) :
    jsSplice1 (pre ++ x :: post) pre.length = pre ++ post := by
  unfold jsSplice1
  have h1 : (pre ++ x :: post).take pre.length = pre := List.take_left pre _
  have h2 : (pre ++ x :: post).drop (pre.length + 1) = post := by
    have : pre ++ x :: post = (pre ++ [x]) ++ post := by simp
    rw [this]
    have hlen : pre.length + 1 = (pre ++ [x]).length := by simp
    rw [hlen]
    exact List.drop_left _ _
  rw [h1, h2]

theorem isDigit_toLowerUnit (c : Nat) : isDigit (toLowerUnit c) = isDigit c := by
  unfold toLowerUnit isDigit
  by_cases h : 65 ≤ c ∧ c ≤ 90
  · rw [if_pos h]
    have h1 : (48 ≤ c + 32 && c + 32 ≤ 57) = false := by
      simp only [Bool.and_eq_false_iff, decide_eq_false_iff_not, not_le]
      omega
    have h2 : (48 ≤ c && c ≤ 57) = false := by
      simp only [Bool.and_eq_false_iff, decide_eq_false_iff_not, not_le]
      omega
    rw [h1, h2]
  · rw [if_neg h]

theorem head_jsToLower_not_digit {q : List Nat}
    (hq : ∀ c, q.head? = some c → isDigit c = false) :
    ∀ c, (jsToLower q).head? = some c → isDigit c = false := by
  intro c hc
  cases q with
  | nil => simp [jsToLower] at hc
  | cons a t =>
    simp only [jsToLower, List.map_cons, List.head?_cons, Option.some.injEq] at hc
    rw [← hc, isDigit_toLowerUnit]
    exact hq a rfl

theorem isEmpty_false_of_ne_nil {d : List Nat} (hd : d ≠ []) :
    d.isEmpty = false := by
  cases d with
  | nil => exact absurd rfl hd
  | cons a t => rfl

theorem tryLonger_at_start {d q : List Nat} (hd : d ≠ [])
    (hdig : ∀ c ∈ d, isDigit c = true)
    (hq : ∀ c, q.head? = some c → isDigit c = false) :
    tryLonger (units "longer than " ++ (d ++ q)) = some (digitsToNat d) := by
  unfold tryLonger
  rw [stripLit_append]
  simp only [takeWhile_digits_append hdig hq, isEmpty_false_of_ne_nil hd,
    Bool.false_eq_true, if_false]

theorem tryShorter_at_start_shorter {d q : List Nat} (hd : d ≠ [])
    (hdig : ∀ c ∈ d, isDigit c = true)
    (hq : ∀ c, q.head? = some c → isDigit c = false) :
    tryShorter (units "shorter than " ++ (d ++ q)) = some (digitsToNat d) := by
  unfold tryShorter
  rw [stripLit_append]
  simp only [takeWhile_digits_append hdig hq, isEmpty_false_of_ne_nil hd,
    Bool.false_eq_true, if_false]

theorem stripLit_shorter_on_less (r : List Nat) :
    stripLit (units "shorter than ") (units "less than " ++ r) = none := by
  simp [stripLit, units]

theorem tryShorter_at_start_less {d q : List Nat} (hd : d ≠ [])
    (hdig : ∀ c ∈ d, isDigit c = true)
    (hq : ∀ c, q.head? = some c → isDigit c = false) :
    tryShorter (units "less than " ++ (d ++ q)) = some (digitsToNat d) := by
  unfold tryShorter
  rw [stripLit_shorter_on_less, stripLit_append]
  simp only [takeWhile_digits_append hdig hq, isEmpty_false_of_ne_nil hd,
    Bool.false_eq_true, if_false]

theorem parseNL_min_of_scan {q : List Nat} {n : Nat}
    (h : scanB tryLonger (jsToLower q) false = some n) :
    ∃ f, parseNaturalLanguageQuery q = some f ∧
      f.min_length = some ((n : Int) + 1) := by
  simp only [parseNaturalLanguageQuery, h]
  simp only [Option.isNone_some, Bool.and_false, Bool.false_and,
    Bool.false_eq_true, if_false]
  exact ⟨_, rfl, rfl⟩

theorem parseNL_max_of_scan {q : List Nat} {n : Nat}
    (h : scanB tryShorter (jsToLower q) false = some n) :
    ∃ f, parseNaturalLanguageQuery q = some f ∧
      f.max_length = some ((n : Int) - 1) := by
  simp only [parseNaturalLanguageQuery, h]
  simp only [Option.isNone_some, Bool.and_false, Bool.false_and,
    Bool.false_eq_true, if_false]
  exact ⟨_, rfl, rfl⟩

theorem jsToLower_lit_append (lit : String) {d : List Nat} (q : List Nat)
    (hlit : jsToLower (units lit) = units lit)
    (hdig : ∀ c ∈ d, isDigit c = true) :
    jsToLower (units lit ++ (d ++ q)) =
      units lit ++ (d ++ jsToLower q) := by
  unfold jsToLower at hlit ⊢
  rw [List.map_append, List.map_append, hlit,
    show List.map toLowerUnit d = d from jsToLower_digits hdig]

theorem parseNL_none_iff (q : List Nat) :
    parseNaturalLanguageQuery q = none ↔
      recognizerFires (jsToLower q) = false := by
  rcases h1 : scanB trySingleOne (jsToLower q) false with _ | u1 <;>
  rcases h2 : scanB tryWcLit (jsToLower q) false with _ | u2 <;>
  rcases h3 : scanB tryNumWords (jsToLower q) false with _ | n3 <;>
  rcases h4 : scanB tryPalin (jsToLower q) false with _ | u4 <;>
  rcases h5 : scanB tryLonger (jsToLower q) false with _ | n5 <;>
  rcases h6 : scanB tryShorter (jsToLower q) false with _ | n6 <;>
  rcases h7 : scanB tryContains (jsToLower q) false with _ | c7 <;>
    simp [parseNaturalLanguageQuery, recognizerFires, h1, h2, h3, h4, h5, h6, h7]

theorem parseNL_some_nonEmpty {q : List Nat} {f : Filters}
    (h : parseNaturalLanguageQuery q = some f) : f.nonEmpty = true := by
  rcases h1 : scanB trySingleOne (jsToLower q) false with _ | u1 <;>
  rcases h2 : scanB tryWcLit (jsToLower q) false with _ | u2 <;>
  rcases h3 : scanB tryNumWords (jsToLower q) false with _ | n3 <;>
  rcases h4 : scanB tryPalin (jsToLower q) false with _ | u4 <;>
  rcases h5 : scanB tryLonger (jsToLower q) false with _ | n5 <;>
  rcases h6 : scanB tryShorter (jsToLower q) false with _ | n6 <;>
  rcases h7 : scanB tryContains (jsToLower q) false with _ | c7 <;>
    simp [parseNaturalLanguageQuery, h1, h2, h3, h4, h5, h6, h7] at h <;>
    simp [← h, Filters.nonEmpty]

theorem parseNL_nil : parseNaturalLanguageQuery [] = none := by decide

/-- Returns `true` iff `pat` occurs as a contiguous substring of `s`. -/
def occursIn (pat : List Nat) : List Nat → Bool
  | [] => (stripLit pat []).isSome
  | c :: t => (stripLit pat (c :: t)).isSome || occursIn pat t

theorem postStrings_created_then_dup (store : List StringRecord)
    (v : List Nat) {r : StringRecord} {st2 : List StringRecord}
    (h : postStrings store v = (.created r, st2)) :
    postStrings st2 v = (.duplicate, st2) := by
  unfold postStrings at h ⊢
  rcases hf : findByValue store v with _ | x
  · rw [hf] at h
    simp only [Prod.mk.injEq] at h
    obtain ⟨hr, hst⟩ := h
    have hfind : findByValue st2 v = some (analyzeString v) := by
      rw [← hst]
      unfold findByValue at hf ⊢
      rw [find?_append_none hf]
      simp [analyzeString, List.find?]
    rw [hfind]
  · rw [hf] at h
    simp at h

/-! ## Claim theorems -/

/-- C1 counterexample.  The claim says deletion matches
case-insensitively, so that after inserting `"Level"` a delete request for
`"LEVEL"` succeeds.  In `src/server.js` the delete handler compares values
with `===`: on the store obtained by inserting `"Level"`, the request for
`"LEVEL"` answers 404 and removes nothing. -/
theorem C1_counterexample :
    (postStrings [] (units "Level")).2 = [analyzeString (units "Level")] ∧
    deleteString [analyzeString (units "Level")] (units "LEVEL") =
      .notFound := by decide

/-- C1 amended.  In `src/server.js` all three of duplicate-check, exact
lookup and deletion match case-sensitively: after inserting `"Level"`,
deleting `"LEVEL"` fails with `NotFound` while deleting `"Level"` itself
succeeds and empties the store, and inserting `"level"` succeeds (not a
duplicate).  The case-insensitive deletion the claim describes is the
behaviour of the variant `src/unnamed/part_001` (`deleteStringCI`), where
deleting `"LEVEL"` does succeed. -/
theorem C1_delete_case_sensitivity :
    (postStrings [] (units "Level")).1 =
      .created (analyzeString (units "Level")) ∧
    (postStrings [] (units "Level")).2 = [analyzeString (units "Level")] ∧
    deleteString [analyzeString (units "Level")] (units "LEVEL") =
      .notFound ∧
    deleteString [analyzeString (units "Level")] (units "Level") =
      .deleted [] ∧
    (postStrings [analyzeString (units "Level")] (units "level")).1 =
      .created (analyzeString (units "level")) ∧
    deleteStringCI [analyzeString (units "Level")] (units "LEVEL") =
      .deleted [] := by decide

/-- C2.  After natural-language translation, whenever both bounds are
present with `min_length > max_length`, the handler answers with the
`conflicting` outcome carrying the parsed filters — an outcome distinct
from every success (`ok`) outcome and from `unparseable`.  (The scenario
`"longer than 10 and shorter than 5"`, which parses to `min_length = 11`,
`max_length = 4`, is instantiated in the witness.) -/
theorem C2_conflict_detection (store : List StringRecord) (q : List Nat)
    (f : Filters) (mn mx : Int)
    (hp : parseNaturalLanguageQuery q = some f)
    (hmn : f.min_length = some mn) (hmx : f.max_length = some mx)
    (hlt : mx < mn) :
    filterByNaturalLanguage store q = .conflicting f ∧
    (∀ data pf, NLResult.conflicting f ≠ NLResult.ok data pf) ∧
    NLResult.conflicting f ≠ NLResult.unparseable := by
  refine ⟨?_, ?_, ?_⟩
  · have hq : q.isEmpty = false := by
      cases q with
      | nil => rw [parseNL_nil] at hp; cases hp
      | cons a t => rfl
    unfold filterByNaturalLanguage
    rw [hq]
    simp only [Bool.false_eq_true, if_false, hp, hmn, hmx]
    rw [if_pos hlt]
  · intro data pf hne
    cases hne
  · intro hne
    cases hne

/-- C2 witness.  The spec's scenario: `"longer than 10 and shorter
than 5"` parses to `min_length = 11 > max_length = 4` and the handler
reports the conflict. -/
theorem C2_conflict_witness :
    parseNaturalLanguageQuery (units "longer than 10 and shorter than 5") =
      some ⟨none, some 11, some 4, none, none⟩ ∧
    filterByNaturalLanguage []
        (units "longer than 10 and shorter than 5") =
      .conflicting ⟨none, some 11, some 4, none, none⟩ :=
  ⟨by decide,
    (C2_conflict_detection [] _ ⟨none, some 11, some 4, none, none⟩ 11 4
      (by decide) rfl rfl (by decide)).1⟩

/-- C3 counterexample.  The claim quantifies over every phrase
*containing* `"longer than N"`.  The phrase `"xlonger than 10"` contains the
substring `"longer than 10"`, yet the regex `\blonger than (\d+)` requires a
word boundary before `longer` (and `x` is a word character), so no
recognizer fires: the translator returns `none` (Unparseable) and no
`min_length = 11` is derived. -/
theorem C3_counterexample :
    occursIn (units "longer than 10") (units "xlonger than 10") = true ∧
    parseNaturalLanguageQuery (units "xlonger than 10") = none := by decide

/-- C3 amended.  For every phrase in which `longer than N` (resp.
`shorter than N`, `less than N`) occurs *at a word boundary* — here in the
strongest position-independent form the leftmost-match semantics allows: the
phrase starts with the pattern, `N` its maximal digit run, with an arbitrary
suffix — the translator sets `min_length = N + 1` (resp.
`max_length = N - 1`).  The spec's scenario `"strings longer than 10"`
(where the boundary is the space) also yields `min_length = 11`. -/
theorem C3_longer_shorter_rules :
    (∀ d q, d ≠ [] → (∀ c ∈ d, isDigit c = true) →
      (∀ c, q.head? = some c → isDigit c = false) →
      ∃ f, parseNaturalLanguageQuery (units "longer than " ++ (d ++ q)) =
          some f ∧ f.min_length = some ((digitsToNat d : Int) + 1)) ∧
    (∀ d q, d ≠ [] → (∀ c ∈ d, isDigit c = true) →
      (∀ c, q.head? = some c → isDigit c = false) →
      ∃ f, parseNaturalLanguageQuery (units "shorter than " ++ (d ++ q)) =
          some f ∧ f.max_length = some ((digitsToNat d : Int) - 1)) ∧
    (∀ d q, d ≠ [] → (∀ c ∈ d, isDigit c = true) →
      (∀ c, q.head? = some c → isDigit c = false) →
      ∃ f, parseNaturalLanguageQuery (units "less than " ++ (d ++ q)) =
          some f ∧ f.max_length = some ((digitsToNat d : Int) - 1)) ∧
    (∃ f, parseNaturalLanguageQuery (units "strings longer than 10") =
        some f ∧ f.min_length = some 11) := by
  refine ⟨?_, ?_, ?_, ?_⟩
  · intro d q hd hdig hq
    have hlow := jsToLower_lit_append "longer than " q (by decide) hdig
    have htry := tryLonger_at_start hd hdig (head_jsToLower_not_digit hq)
    exact parseNL_min_of_scan (by rw [hlow]; exact scanB_of_here htry)
  · intro d q hd hdig hq
    have hlow := jsToLower_lit_append "shorter than " q (by decide) hdig
    have htry := tryShorter_at_start_shorter hd hdig
      (head_jsToLower_not_digit hq)
    exact parseNL_max_of_scan (by rw [hlow]; exact scanB_of_here htry)
  · intro d q hd hdig hq
    have hlow := jsToLower_lit_append "less than " q (by decide) hdig
    have htry := tryShorter_at_start_less hd hdig
      (head_jsToLower_not_digit hq)
    exact parseNL_max_of_scan (by rw [hlow]; exact scanB_of_here htry)
  · exact ⟨⟨none, some 11, none, none, none⟩, by decide, rfl⟩

/-- C3 witness.  The amended rules instantiated at `N = 10` with an
empty suffix: `"longer than 10"` gives `min_length = 11` and
`"shorter than 10"` gives `max_length = 9`. -/
theorem C3_witness :
    (∃ f, parseNaturalLanguageQuery (units "longer than 10") = some f ∧
      f.min_length = some 11) ∧
    (∃ f, parseNaturalLanguageQuery (units "shorter than 10") = some f ∧
      f.max_length = some 9) := by
  constructor
  · obtain ⟨f, hf, hm⟩ := C3_longer_shorter_rules.1 (units "10") []
      (by decide) (by decide) (fun c hc => Option.noConfusion hc)
    refine ⟨f, ?_, ?_⟩
    · rw [show units "longer than " ++ (units "10" ++ []) =
        units "longer than 10" by decide] at hf
      exact hf
    · rw [hm]; decide
  · obtain ⟨f, hf, hm⟩ := C3_longer_shorter_rules.2.1 (units "10") []
      (by decide) (by decide) (fun c hc => Option.noConfusion hc)
    refine ⟨f, ?_, ?_⟩
    · rw [show units "shorter than " ++ (units "10" ++ []) =
        units "shorter than 10" by decide] at hf
      exact hf
    · rw [hm]; decide

/-- C4.  The translator returns `none` (Unparseable) exactly when none
of the five recognizers fires on the lowercased phrase, and whenever at
least one fires the result is a `some` filter set with at least one field
populated. -/
theorem C4_unparseable_iff_no_recognizer (q : List Nat) :
    (parseNaturalLanguageQuery q = none ↔
      recognizerFires (jsToLower q) = false) ∧
    (∀ f, parseNaturalLanguageQuery q = some f → f.nonEmpty = true) := by
  exact ⟨parseNL_none_iff q, fun f hf => parseNL_some_nonEmpty hf⟩

/-- C4 witness.  On `"palindromes"` the palindrome recognizer fires and
the parsed set is non-empty; the theorem's second component applied at this
phrase discharges its hypothesis by computation. -/
theorem C4_witness :
    recognizerFires (jsToLower (units "palindromes")) = true ∧
    Filters.nonEmpty ⟨some true, none, none, none, none⟩ = true :=
  ⟨by decide,
    (C4_unparseable_iff_no_recognizer (units "palindromes")).2
      ⟨some true, none, none, none, none⟩ (by decide)⟩

/-- C5.  The filter predicate engine of `GET /strings`: the empty filter
set is the identity on the record sequence; the output is always a sublist
of the input (same elements in the same relative order — no reordering, no
duplication); and membership in the output is exactly conjunction of
membership in the input with satisfaction of every provided predicate. -/
theorem C5_filter_engine_algebra :
    (∀ records, applyFilters records emptyFilters = records) ∧
    (∀ records f, (applyFilters records f).Sublist records) ∧
    (∀ records f r,
      r ∈ applyFilters records f ↔
        r ∈ records ∧ satisfiesFilters f r = true) :=
  ⟨fun _ => rfl, applyFilters_sublist, applyFilters_mem⟩

/-- C6 counterexample.  The claim says a numeric filter value must
parse as a base-10 integer with nothing silently truncated.  `parseInt`
truncates at the first non-digit: the request `min_length = "12abc"` is not
rejected — it is accepted and filtered with `min_length = 12`. -/
theorem C6_counterexample :
    getStrings [] ⟨none, some (units "12abc"), none, none, none⟩ =
      .ok [] ⟨none, some 12, none, none, none⟩ := by decide

theorem digit_not_sign {c : Nat} (hc : isDigit c = true) :
    c ≠ 43 ∧ c ≠ 45 := by
  simp only [isDigit, Bool.and_eq_true, decide_eq_true_eq] at hc
  omega

theorem getStrings_badRequest_min {store : List StringRecord}
    {rq : RawQuery} {v : List Nat}
    (hv : rq.min_length = some v) (hn : jsParseInt10 v = none) :
    getStrings store rq = .badRequest := by
  have hpf : parseFilters rq = none := by
    unfold parseFilters
    rw [hv]
    simp only [parseIntOrNull, hn]
    repeat' split
    all_goals rfl
  simp [getStrings, hpf]

theorem getStrings_badRequest_max {store : List StringRecord}
    {rq : RawQuery} {v : List Nat}
    (hv : rq.max_length = some v) (hn : jsParseInt10 v = none) :
    getStrings store rq = .badRequest := by
  have hpf : parseFilters rq = none := by
    unfold parseFilters
    rw [hv]
    simp only [parseIntOrNull, hn]
    repeat' split
    all_goals rfl
  simp [getStrings, hpf]

theorem getStrings_badRequest_wc {store : List StringRecord}
    {rq : RawQuery} {v : List Nat}
    (hv : rq.word_count = some v) (hn : jsParseInt10 v = none) :
    getStrings store rq = .badRequest := by
  have hpf : parseFilters rq = none := by
    unfold parseFilters
    rw [hv]
    simp only [parseIntOrNull, hn]
    repeat' split
    all_goals rfl
  simp [getStrings, hpf]

/-- C6 amended.  `min_length`, `max_length` and `word_count` go through
`parseInt(v, 10)`:
* when `parseInt` yields `NaN` (in particular for any value whose first
  non-whitespace character is not a sign or digit), the whole request is
  rejected with HTTP 400 and no filter is applied;
* but a value that *starts* with digits is accepted with the trailing
  content silently truncated (`"12abc"` → `12`), contrary to the claim's
  "no value is silently truncated". -/
theorem C6_integer_validation :
    (∀ (store : List StringRecord) (rq : RawQuery) v,
      rq.min_length = some v → jsParseInt10 v = none →
      getStrings store rq = .badRequest) ∧
    (∀ (store : List StringRecord) (rq : RawQuery) v,
      rq.max_length = some v → jsParseInt10 v = none →
      getStrings store rq = .badRequest) ∧
    (∀ (store : List StringRecord) (rq : RawQuery) v,
      rq.word_count = some v → jsParseInt10 v = none →
      getStrings store rq = .badRequest) ∧
    (∀ c t, isJsWs c = false → c ≠ 43 → c ≠ 45 → isDigit c = false →
      jsParseInt10 (c :: t) = none) ∧
    (∀ d q, d ≠ [] → (∀ x ∈ d, isDigit x = true) →
      (∀ x, q.head? = some x → isDigit x = false) →
      jsParseInt10 (d ++ q) = some (digitsToNat d)) := by
  refine ⟨fun _ _ _ => getStrings_badRequest_min,
    fun _ _ _ => getStrings_badRequest_max,
    fun _ _ _ => getStrings_badRequest_wc, ?_, ?_⟩
  · intro c t hws h43 h45 hdig
    unfold jsParseInt10
    rw [List.dropWhile_cons_of_neg (by simp [hws])]
    simp [h43, h45, List.takeWhile_cons, hdig]
  · intro d q hd hdig hq
    obtain ⟨c, d', rfl⟩ : ∃ c d', d = c :: d' := by
      cases d with
      | nil => exact absurd rfl hd
      | cons c d' => exact ⟨c, d', rfl⟩
    have hc : isDigit c = true := hdig c (by simp)
    obtain ⟨h43, h45⟩ := digit_not_sign hc
    unfold jsParseInt10
    rw [show (c :: d') ++ q = c :: (d' ++ q) from rfl,
      List.dropWhile_cons_of_neg (by simp [isJsWs_of_isDigit hc])]
    simp only [if_neg h43, if_neg h45]
    rw [show c :: (d' ++ q) = (c :: d') ++ q from rfl,
      takeWhile_digits_append hdig hq, isEmpty_false_of_ne_nil hd]
    simp

/-- C6 witness.  The rejection rule at `min_length = "abc"` (no leading
integer, request rejected) and the truncation rule at `"12abc"`. -/
theorem C6_witness :
    getStrings [] ⟨none, some (units "abc"), none, none, none⟩ =
      .badRequest ∧
    jsParseInt10 (units "12abc") = some 12 := by
  constructor
  · exact C6_integer_validation.1 [] _ (units "abc") rfl (by decide)
  · have h := C6_integer_validation.2.2.2.2 (units "12") (units "abc")
      (by decide) (by decide) (by decide)
    rw [show units "12" ++ units "abc" = units "12abc" by decide] at h
    rw [h]
    decide

/-- C7.  `analyzeString`: `length` is the code-unit count of the value;
`is_palindrome` holds exactly when the lowercased string equals its own
(code-unit) reversal, with nothing stripped; and `word_count` is the number
of maximal non-whitespace runs (whitespace-delimited non-empty tokens), in
particular `0` for the empty or whitespace-only string. -/
theorem C7_analyze_properties (s : List Nat) :
    (analyzeString s).length = s.length ∧
    ((analyzeString s).is_palindrome = true ↔
      jsToLower s = (jsToLower s).reverse) ∧
    (analyzeString s).word_count = (wsTokens s).length ∧
    ((∀ c ∈ s, isJsWs c = true) → (analyzeString s).word_count = 0) := by
  refine ⟨rfl, by simp [analyzeString], analyzeString_word_count s, ?_⟩
  intro h
  rw [analyzeString_word_count s, wsTokens_all_ws h]
  rfl

/-- C7 witness.  The whitespace-only conjunct instantiated at a
two-space string. -/
theorem C7_witness : (analyzeString (units "  ")).word_count = 0 :=
  (C7_analyze_properties (units "  ")).2.2.2 (by decide)

/-- C8 counterexample.  The claim says character counting iterates
over code units, with frequency counts summing to `properties.length`.  On
the single astral character U+1D11E (code units `0xD834 0xDD1E`):
`length = 2` but the `for...of`/`Set` iteration combines the surrogate
pair, so `unique_characters = 1` (≠ the 2 distinct code units) and the
frequency counts sum to `1 ≠ length`. -/
theorem C8_counterexample :
    (analyzeString [0xD834, 0xDD1E]).length = 2 ∧
    (analyzeString [0xD834, 0xDD1E]).unique_characters = 1 ∧
    ([0xD834, 0xDD1E] : List Nat).dedup.length = 2 ∧
    freqSum (analyzeString [0xD834, 0xDD1E]).character_frequency_map = 1 := by
  decide

/-- C8 amended.  Character counting and frequency mapping iterate over
code *points* (surrogate pairs combined): `unique_characters` is the number
of distinct code points, the frequency counts sum to the code-point count,
and that count agrees with `properties.length` exactly on strings without a
surrogate pair (no astral characters). -/
theorem C8_code_point_iteration (s : List Nat) :
    (analyzeString s).unique_characters = (codePoints s).toFinset.card ∧
    freqSum (analyzeString s).character_frequency_map =
      (codePoints s).length ∧
    (hasSurrPair s = false →
      freqSum (analyzeString s).character_frequency_map =
        (analyzeString s).length) := by
  refine ⟨(List.card_toFinset _).symm, freqSum_charFreqMap s, ?_⟩
  intro h
  show freqSum (charFreqMap s) = s.length
  rw [freqSum_charFreqMap, codePoints_length_of_no_pair h]

/-- C8 witness.  On the surrogate-free string `"abc"` the frequency
counts sum to `length`. -/
theorem C8_witness :
    freqSum (analyzeString (units "abc")).character_frequency_map =
      (analyzeString (units "abc")).length :=
  (C8_code_point_iteration (units "abc")).2.2 (by decide)

/-- C9.  Insertion is idempotent-rejecting and atomic on error: if a
stored record's value equals `v` the insertion answers `duplicate` with the
store bit-for-bit unchanged, and in particular a successful insertion of
`v` followed by a second insertion of the same `v` yields `duplicate` with
the store unchanged. -/
theorem C9_duplicate_rejection :
    (∀ (store : List StringRecord) v, (∃ x ∈ store, x.value = v) →
      postStrings store v = (.duplicate, store)) ∧
    (∀ (store : List StringRecord) v r st2,
      postStrings store v = (.created r, st2) →
      postStrings st2 v = (.duplicate, st2)) := by
  constructor
  · intro store v hx
    obtain ⟨x, hmem, hv⟩ := hx
    have hfind : (findByValue store v).isSome := by
      unfold findByValue
      rw [List.find?_isSome]
      exact ⟨x, hmem, by simp [hv]⟩
    unfold postStrings
    rcases hf : findByValue store v with _ | y
    · rw [hf] at hfind; cases hfind
    · rfl
  · intro store v r st2 h
    exact postStrings_created_then_dup store v h

/-- C9 witness.  Inserting `"a"` into the empty store succeeds; the
immediate re-insertion is rejected as a duplicate with the store
unchanged. -/
theorem C9_witness :
    postStrings [analyzeString (units "a")] (units "a") =
      (.duplicate, [analyzeString (units "a")]) :=
  C9_duplicate_rejection.2 [] (units "a") (analyzeString (units "a"))
    [analyzeString (units "a")] (by decide)

/-- C10.  A successful deletion removes exactly the first record (in
insertion order) whose value matches the request: the store decomposes as
`pre ++ x :: post` with `x.value = v`, no record of `pre` matching, and the
resulting store is exactly `pre ++ post` — every other record unchanged, in
the same relative order, and the size decreases by one. -/
theorem C10_delete_frame (store : List StringRecord) (v : List Nat)
    (store2 : List StringRecord)
    (h : deleteString store v = .deleted store2) :
    ∃ pre x post, store = pre ++ x :: post ∧ x.value = v ∧
      (∀ y ∈ pre, y.value ≠ v) ∧ store2 = pre ++ post ∧
      store.length = store2.length + 1 := by
  unfold deleteString at h
  rcases hidx : jsFindIndex (fun item => item.value == v) store with _ | i
  · rw [hidx] at h; cases h
  · rw [hidx] at h
    have h2 : DeleteResult.deleted (jsSplice1 store i) = .deleted store2 := h
    injection h2 with h3
    subst h3
    obtain ⟨pre, x, post, hl, hlen, hx, hpre⟩ := jsFindIndex_decomp hidx
    have hsplice : jsSplice1 store i = pre ++ post := by
      rw [hl, ← hlen, jsSplice1_append]
    refine ⟨pre, x, post, hl, by simpa using hx, ?_, hsplice, ?_⟩
    · intro y hy
      simpa using hpre y hy
    · rw [hsplice, hl]
      simp [List.length_append]
      omega

/-- C10 witness.  Deleting `"b"` from the two-record store
`["a", "b"]` removes exactly the second record. -/
theorem C10_witness :
    ∃ pre x post,
      [analyzeString (units "a"), analyzeString (units "b")] =
        pre ++ x :: post ∧
      x.value = units "b" ∧ (∀ y ∈ pre, y.value ≠ units "b") ∧
      [analyzeString (units "a")] = pre ++ post ∧
      [analyzeString (units "a"),
        analyzeString (units "b")].length =
        [analyzeString (units "a")].length + 1 :=
  C10_delete_frame
    [analyzeString (units "a"), analyzeString (units "b")]
    (units "b") [analyzeString (units "a")] (by decide)
